import Mathlib

/-!
Shallow embedding of `src/CloudflareKVRateLimiter.js` from the
`cloudflare-kv-rate-limit` package, together with proofs about its
decision engine (`computeState`), window-state normalization, the
consume/inspect facade, and construction-time option validation.

Conventions of the embedding:
* JS numbers that hold millisecond timestamps are modelled as `Int`
  (the code only ever compares, adds and subtracts them).
* A raw stored JSON array may contain non-numeric junk; its elements are
  modelled by `JVal` (`num` or `other`), matching the
  `typeof ts === 'number'` filter in the code.
* `Array.prototype.sort((a, b) => a - b)` sorts numbers ascending; any
  ascending sort of an integer list yields the same list, so it is
  modelled by `List.insertionSort (· ≤ ·)`.
* `Math.ceil(resetMs / 1000)` for `resetMs ≥ 0` is `(resetMs + 999) / 1000`
  in Euclidean integer division; the bridge to the real `ceil` is proved
  in `ceil_ratCast_div_1000`.
* The KV store holds a single record per key and each operation touches
  one key, so the store is modelled per-key: an optional parsed array
  plus failure flags for its `get`/`put` operations (the JS `get` helper
  maps a thrown error or a non-array value to `[]`, and the `set` helper
  swallows `put` errors).
-/

/-- An element of the raw stored JSON array: a number or anything else. -/
inductive JVal where
  | num (n : Int)
  | other
deriving DecidableEq, Repr

/-- The validated numeric configuration (`limit`, `period`, `interval`),
after `Math.floor` was applied at construction. -/
structure Config where
  limit : Int
  period : Int
  interval : Int
deriving DecidableEq, Repr

/-- The constraints enforced by the constructor's assertions
(lines 22-25 of the source). -/
def Config.Valid (c : Config) : Prop :=
  1 ≤ c.limit ∧ 60 ≤ c.period ∧ 0 ≤ c.interval ∧ c.interval ≤ c.period

instance (c : Config) : Decidable c.Valid := by
  unfold Config.Valid; infer_instance

/-- The pruning step `arr.filter(ts => typeof ts === 'number' && ts > (now - periodMs)).sort((a, b) => a - b)`
(line 74 and line 113 of the source): keep fresh numeric entries, sort ascending. -/
def pruneSort (cfg : Config) (raw : List JVal) (now : Int) : List Int :=
  List.insertionSort (· ≤ ·)
    (raw.filterMap fun v =>
      match v with
      | JVal.num n => if now - cfg.period * 1000 < n then some n else none
      | JVal.other => none)

/-- Normalization at the start of `ratelimiter` (lines 72-81): prune and sort,
record whether the length changed, then trim to the most recent `limit`
entries (`arr.slice(arr.length - limit)`), forcing `changed` when trimming. -/
def consumeNormalize (cfg : Config) (raw : List JVal) (now : Int) :
    List Int × Bool :=
  let arr := pruneSort cfg raw now
  let changed := decide (arr.length ≠ raw.length)
  if cfg.limit < (arr.length : Int) then
    (arr.drop (arr.length - cfg.limit.toNat), true)
  else
    (arr, changed)

/-- Normalization in `ratelimiter.get` (line 113): prune and sort only —
the inspect path has no trimming step. -/
def inspectNormalize (cfg : Config) (raw : List JVal) (now : Int) : List Int :=
  pruneSort cfg raw now

/-- The record returned by `computeState`. -/
structure DecisionCore where
  success : Bool
  remaining : Int
  reset : Int
deriving DecidableEq, Repr

/-- The decision engine `computeState(arr, now)` (lines 41-56 of the source). `first`/`last` are
given the default `0` for an empty array; the JS code would produce `NaN`
there, but both uses are guarded: the limit candidate is only pushed when
`arr.length ≥ limit ≥ 1` and the interval candidate only when
`last != null`, so the defaults are never read for a valid config. -/
def computeState (cfg : Config) (arr : List Int) (now : Int) : DecisionCore :=
  let periodMs := cfg.period * 1000
  let intervalMs := cfg.interval * 1000
  let first := arr.head?.getD 0
  let last := arr.getLast?.getD 0
  let allowedByLimit : Bool := decide ((arr.length : Int) < cfg.limit)
  let allowedByInterval : Bool :=
    decide (intervalMs ≤ 0) || decide (arr.getLast? = none) ||
      decide (intervalMs ≤ now - last)
  let success := allowedByLimit && allowedByInterval
  let remaining := max 0 (cfg.limit - (arr.length : Int))
  let resets : List Int :=
    (if allowedByLimit then [] else [first + periodMs - now]) ++
      (if allowedByInterval then [] else [last + intervalMs - now])
  let resetMs : Int := max 0 (match resets with
    | [] => 0
    | x :: xs => xs.foldl max x)
  let reset : Int := if success then 0 else (resetMs + 999) / 1000
  ⟨success, remaining, reset⟩

/-- The result shape returned by both entry points. -/
structure RLResult where
  success : Bool
  limit : Int
  remaining : Int
  reset : Int
deriving DecidableEq, Repr

/-- Per-key view of the KV store: the parsed record (`none` models both an
absent key and a non-array value, which the `get` helper maps to `[]`),
plus flags making `get`/`put` throw. -/
structure StoreState where
  record : Option (List JVal)
  failGet : Bool
  failPut : Bool
deriving DecidableEq, Repr

/-- The `get` helper (lines 127-134): a throwing `KV.get` or a non-array
value yields `[]`. -/
def readKV (st : StoreState) : List JVal :=
  if st.failGet then []
  else
    match st.record with
    | some l => l
    | none => []

/-- Effect of the `set` helper (lines 136-140) on the store: a throwing
`KV.put` is swallowed and leaves the record unchanged. -/
def writeKV (st : StoreState) (arr : List Int) : StoreState :=
  if st.failPut then st
  else { st with record := some (arr.map JVal.num) }

/-- One attempted `set(KV, kvKey, arr, period)` call: the array written and
the TTL passed as `expirationTtl`. -/
abbrev WriteCall := List Int × Int

/-- The consume entry point `ratelimiter(key)` (lines 64-96): read, normalize, decide, conditionally
write back, recompute `remaining` from the possibly-appended array.
Returns the result, the store afterwards, and the attempted writes. -/
def consume (cfg : Config) (st : StoreState) (now : Int) :
    RLResult × StoreState × List WriteCall :=
  let raw := readKV st
  let nc := consumeNormalize cfg raw now
  let arr := nc.1
  let changed := nc.2
  let c := computeState cfg arr now
  if c.success then
    let arr2 := arr ++ [now]
    (⟨c.success, cfg.limit, max 0 (cfg.limit - (arr2.length : Int)), c.reset⟩,
      writeKV st arr2, [(arr2, cfg.period)])
  else if changed then
    (⟨c.success, cfg.limit, max 0 (cfg.limit - (arr.length : Int)), c.reset⟩,
      writeKV st arr, [(arr, cfg.period)])
  else
    (⟨c.success, cfg.limit, max 0 (cfg.limit - (arr.length : Int)), c.reset⟩,
      st, [])

/-- The inspect entry point `ratelimiter.get(key)` (lines 104-118): read, prune and sort, decide;
no write and no trim. -/
def inspect (cfg : Config) (st : StoreState) (now : Int) : RLResult :=
  let arr := inspectNormalize cfg (readKV st) now
  let c := computeState cfg arr now
  ⟨c.success, cfg.limit, c.remaining, c.reset⟩

/-- The inspect entry point as a store transition: it only performs a read,
so the store component is returned unchanged (lines 104-118 contain no
`set` call). -/
def inspectOp (cfg : Config) (st : StoreState) (now : Int) :
    RLResult × StoreState :=
  (inspect cfg st now, st)

/-- Iterate the store effect of `n` inspect calls. -/
def iterInspect (cfg : Config) (now : Int) : Nat → StoreState → StoreState
  | 0, st => st
  | n + 1, st => iterInspect cfg now n (inspectOp cfg st now).2

/-- Raw construction options (lines 13-18 of the source). `binding` and
`prefix` are modelled as string-or-absent, the numeric options as
rational-or-absent: an absent `limit`/`period` makes `Math.floor` produce
`NaN`, which then fails the `Number.isFinite` part of its assertion. -/
structure RawOptions where
  bindingOpt : Option String
  nsOpt : Option String
  limitOpt : Option Rat
  periodOpt : Option Rat
  intervalOpt : Option Rat
deriving DecidableEq, Repr

/-- What construction produces: the resolved binding name, the key
namespace string, and the validated numeric configuration. -/
structure BuiltLimiter where
  binding : String
  keyNs : String
  cfg : Config
deriving DecidableEq, Repr

/-- Construction (lines 13-25 of the source): resolve defaults
(`opts.binding || 'KV'`, string-typed `opts.prefix` or `'ratelimit:'`,
`opts.interval ?? 0`), apply `Math.floor` to the numerics, then run the
assertions in source order. The KV handle itself is NOT examined here:
the `get`/`put` capability assertion lives inside the async `resolveKV`
(lines 32-39) and only runs on the first limiter call, after the dynamic
`import('cloudflare:worker')`. -/
def validateOptions (o : RawOptions) : Except String BuiltLimiter :=
  let binding := match o.bindingOpt with
    | some s => if s.length = 0 then "KV" else s
    | none => "KV"
  let keyNs := match o.nsOpt with
    | some s => s
    | none => "ratelimit:"
  let limitF : Option Int := o.limitOpt.map Rat.floor
  let periodF : Option Int := o.periodOpt.map Rat.floor
  let intervalF : Int := Rat.floor (o.intervalOpt.getD 0)
  if binding.length = 0 then
    Except.error "binding must be a non-empty string (KV binding name)"
  else if keyNs.length = 0 then
    Except.error "prefix must be a non-empty string"
  else
    match limitF with
    | none => Except.error "limit must be >= 1"
    | some limit =>
      if limit < 1 then Except.error "limit must be >= 1"
      else
        match periodF with
        | none =>
          Except.error "period must be >= 60 seconds (Cloudflare KV TTL minimum)"
        | some period =>
          if period < 60 then
            Except.error "period must be >= 60 seconds (Cloudflare KV TTL minimum)"
          else if intervalF < 0 then Except.error "interval must be >= 0"
          else if period < intervalF then
            Except.error "interval must be <= period"
          else Except.ok ⟨binding, keyNs, ⟨limit, period, intervalF⟩⟩

/-- Truncation toward zero on rationals, as the spec describes the numeric
preprocessing ("truncated toward zero"); differs from `Math.floor` on
negative non-integers. -/
def truncTowardZero (q : Rat) : Int :=
  if 0 ≤ q then ⌊q⌋ else ⌈q⌉

/-- Replace every raw numeric option by its `Math.floor` image. -/
def floorOptions (o : RawOptions) : RawOptions :=
  ⟨o.bindingOpt, o.nsOpt,
    o.limitOpt.map fun q => ((⌊q⌋ : Int) : Rat),
    o.periodOpt.map fun q => ((⌊q⌋ : Int) : Rat),
    o.intervalOpt.map fun q => ((⌊q⌋ : Int) : Rat)⟩

/-- The claim-side reset formula, written from the spec's words:
`ceil(max(candidates, 0) / 1000)` with the real ceiling function, where
the candidate list holds `(first + period·1000) − now` when the limit
gate blocks and `(last + interval·1000) − now` when the interval gate
blocks, and with both present the larger is taken. -/
def specResetSeconds (cfg : Config) (arr : List Int) (now : Int) : Int :=
  let candL := arr.head?.getD 0 + cfg.period * 1000 - now
  let candI := arr.getLast?.getD 0 + cfg.interval * 1000 - now
  let limitBlocked := ¬ ((arr.length : Int) < cfg.limit)
  let intervalBlocked :=
    ¬ (cfg.interval * 1000 ≤ 0 ∨ arr = [] ∨ cfg.interval * 1000 ≤ now - arr.getLast?.getD 0)
  if limitBlocked ∧ intervalBlocked then ⌈((max (max candL candI) 0 : Int) : ℚ) / 1000⌉
  else if limitBlocked then ⌈((max candL 0 : Int) : ℚ) / 1000⌉
  else if intervalBlocked then ⌈((max candI 0 : Int) : ℚ) / 1000⌉
  else 0

/-! ### Helper lemmas -/

/-- The real ceiling `Math.ceil(m / 1000)` equals `(m + 999) / 1000` in
Euclidean integer division. -/
lemma ceil_ratCast_div_1000 (m : Int) : ⌈((m : ℚ)) / 1000⌉ = (m + 999) / 1000 := by
  have h : ((m : ℚ)) / 1000 = -(((-m : Int) : ℚ) / ((1000 : ℕ) : ℚ)) := by
    push_cast
    ring
  rw [h, Int.ceil_neg, Rat.floor_intCast_div_natCast]
  omega

lemma pruneSort_sorted (cfg : Config) (raw : List JVal) (now : Int) :
    List.Sorted (· ≤ ·) (pruneSort cfg raw now) :=
  List.sorted_insertionSort _ _

lemma mem_pruneSort_fresh (cfg : Config) (raw : List JVal) (now : Int) :
    ∀ x ∈ pruneSort cfg raw now, now - cfg.period * 1000 < x := by
  intro x hx
  rw [pruneSort, List.mem_insertionSort, List.mem_filterMap] at hx
  obtain ⟨v, -, hv⟩ := hx
  cases v with
  | num n =>
    by_cases h : now - cfg.period * 1000 < n
    · simp [h] at hv
      omega
    · simp [h] at hv
  | other => simp at hv

lemma pruneSort_length_le (cfg : Config) (raw : List JVal) (now : Int) :
    (pruneSort cfg raw now).length ≤ raw.length := by
  rw [pruneSort, List.length_insertionSort]
  exact List.length_filterMap_le _ _

lemma consumeNormalize_fst_fresh (cfg : Config) (raw : List JVal) (now : Int) :
    ∀ x ∈ (consumeNormalize cfg raw now).1, now - cfg.period * 1000 < x := by
  intro x hx
  apply mem_pruneSort_fresh cfg raw now
  rw [consumeNormalize] at hx
  by_cases h : cfg.limit < ((pruneSort cfg raw now).length : Int)
  · simp only [h, if_pos] at hx
    exact List.mem_of_mem_drop hx
  · simpa [h] using hx

lemma consumeNormalize_fst_sorted (cfg : Config) (raw : List JVal) (now : Int) :
    List.Sorted (· ≤ ·) (consumeNormalize cfg raw now).1 := by
  rw [consumeNormalize]
  by_cases h : cfg.limit < ((pruneSort cfg raw now).length : Int)
  · simp only [h, if_pos]
    exact (pruneSort_sorted cfg raw now).sublist (List.drop_sublist _ _)
  · simpa [h] using pruneSort_sorted cfg raw now

/-- The decision fields of `consume` are those of `computeState` on the
normalized array. -/
lemma consume_fst_eq (cfg : Config) (st : StoreState) (now : Int) :
    (consume cfg st now).1.success
        = (computeState cfg (consumeNormalize cfg (readKV st) now).1 now).success
      ∧ (consume cfg st now).1.reset
        = (computeState cfg (consumeNormalize cfg (readKV st) now).1 now).reset := by
  rw [consume]
  split
  · exact ⟨rfl, rfl⟩
  · split
    · exact ⟨rfl, rfl⟩
    · exact ⟨rfl, rfl⟩

lemma consumeNormalize_nil (cfg : Config) (hl : 0 ≤ cfg.limit) (now : Int) :
    consumeNormalize cfg [] now = ([], false) := by
  have hp : pruneSort cfg [] now = [] := rfl
  rw [consumeNormalize, hp]
  simp
  omega

lemma computeState_nil (cfg : Config) (hl : 0 < cfg.limit) (now : Int) :
    computeState cfg [] now = ⟨true, cfg.limit, 0⟩ := by
  rw [computeState]
  simp [hl]
  omega

/-! ### C8: consume on a fresh key -/

/-- C8: for every valid configuration and a key with no stored history,
`Consume` returns `success = true`, `remaining = limit - 1`, `reset = 0`. -/
theorem fresh_consume (cfg : Config) (hv : cfg.Valid) (now : Int) :
    (consume cfg ⟨none, false, false⟩ now).1
      = ⟨true, cfg.limit, cfg.limit - 1, 0⟩ := by
  obtain ⟨h1, h2, h3, h4⟩ := hv
  have hr : readKV ⟨none, false, false⟩ = [] := rfl
  rw [consume, hr, consumeNormalize_nil cfg (by omega) now,
    computeState_nil cfg (by omega) now]
  simp
  omega

/-- Witness for `fresh_consume` at `limit = 3`, `period = 60`, `interval = 10`. -/
theorem fresh_consume_witness :
    (consume ⟨3, 60, 10⟩ ⟨none, false, false⟩ 0).1 = ⟨true, 3, 2, 0⟩ :=
  fresh_consume ⟨3, 60, 10⟩ (by decide) 0

/-! ### C4: inspect is a pure reader -/

lemma iterInspect_eq (cfg : Config) (now : Int) :
    ∀ (n : Nat) (st : StoreState), iterInspect cfg now n st = st := by
  intro n
  induction n with
  | zero => intro st; rfl
  | succ k ih => intro st; exact ih st

/-- C4: `Inspect` never writes: any number of `Inspect` calls followed by a
`Consume` yields the same Decision Result and the same final stored state
as `Consume` alone. -/
theorem inspect_no_mutation (cfg : Config) (n : Nat) (st : StoreState)
    (now now' : Int) :
    iterInspect cfg now n st = st
      ∧ consume cfg (iterInspect cfg now n st) now' = consume cfg st now' := by
  refine ⟨iterInspect_eq cfg now n st, ?_⟩
  rw [iterInspect_eq cfg now n st]

/-! ### C5: store failures are transparent -/

/-- C5: a store whose read throws gives exactly the same Decision Result
(for both entry points) as a store with no record, and a store whose write
throws gives the same Decision Result as one whose write succeeds; the
model functions are total, so no exception reaches the caller. -/
theorem store_failure_transparent (cfg : Config) (rec : Option (List JVal))
    (fg fp : Bool) (now : Int) :
    (consume cfg ⟨rec, true, fp⟩ now).1 = (consume cfg ⟨none, false, fp⟩ now).1
      ∧ inspect cfg ⟨rec, true, fp⟩ now = inspect cfg ⟨none, false, fp⟩ now
      ∧ (consume cfg ⟨rec, fg, true⟩ now).1 = (consume cfg ⟨rec, fg, false⟩ now).1
      ∧ (consume cfg ⟨rec, fg, true⟩ now).2.2 = (consume cfg ⟨rec, fg, false⟩ now).2.2
      ∧ inspect cfg ⟨rec, fg, true⟩ now = inspect cfg ⟨rec, fg, false⟩ now := by
  have hread : readKV ⟨rec, true, fp⟩ = readKV ⟨none, false, fp⟩ := rfl
  have hread2 : readKV ⟨rec, fg, true⟩ = readKV ⟨rec, fg, false⟩ := rfl
  refine ⟨?_, ?_, ?_, ?_, ?_⟩
  · rw [consume, consume, hread]
    split
    · rfl
    · split
      · rfl
      · rfl
  · rw [inspect, inspect, hread]
  · rw [consume, consume, hread2]
    split
    · rfl
    · split
      · rfl
      · rfl
  · rw [consume, consume, hread2]
    split
    · rfl
    · split
      · rfl
      · rfl
  · rw [inspect, inspect, hread2]

/-! ### C3: write-back policy of consume -/

/-- The `changed` flag of normalization is set exactly when pruning or
trimming shortened the raw sequence. -/
lemma consumeNormalize_changed_iff (cfg : Config) (hv : cfg.Valid)
    (raw : List JVal) (now : Int) :
    (consumeNormalize cfg raw now).2 = true
      ↔ (consumeNormalize cfg raw now).1.length < raw.length := by
  obtain ⟨h1, -, -, -⟩ := hv
  have hn := pruneSort_length_le cfg raw now
  rw [consumeNormalize]
  by_cases h : cfg.limit < ((pruneSort cfg raw now).length : Int)
  · simp only [h, if_pos, List.length_drop]
    simp
    omega
  · simp only [h, if_neg, not_false_iff]
    simp
    omega

/-- C3: on success the appended array is written back with TTL `period`,
unconditionally; on rejection a write happens iff normalization shortened
the stored sequence (pruning or trimming), persisting the trimmed form,
and no write happens on a pure, unchanged rejection. -/
theorem consume_write_policy (cfg : Config) (hv : cfg.Valid)
    (st : StoreState) (now : Int) :
    ((consume cfg st now).1.success = true →
        (consume cfg st now).2.2
            = [((consumeNormalize cfg (readKV st) now).1 ++ [now], cfg.period)]
          ∧ (consume cfg st now).2.1
            = writeKV st ((consumeNormalize cfg (readKV st) now).1 ++ [now]))
      ∧ ((consume cfg st now).1.success = false →
          ((consume cfg st now).2.2 ≠ [] ↔
              (consumeNormalize cfg (readKV st) now).1.length
                < (readKV st).length)
            ∧ ((consume cfg st now).2.2 = [] → (consume cfg st now).2.1 = st)
            ∧ ((consume cfg st now).2.2 ≠ [] →
                (consume cfg st now).2.2
                    = [((consumeNormalize cfg (readKV st) now).1, cfg.period)]
                  ∧ (consume cfg st now).2.1
                    = writeKV st (consumeNormalize cfg (readKV st) now).1)) := by
  have hch := consumeNormalize_changed_iff cfg hv (readKV st) now
  cases hsucc : (computeState cfg (consumeNormalize cfg (readKV st) now).1 now).success with
  | true =>
    constructor
    · intro _
      rw [consume]
      simp only [hsucc]
      exact ⟨rfl, rfl⟩
    · intro hfalse
      rw [consume] at hfalse
      simp only [hsucc] at hfalse
      exact absurd hfalse (by simp)
  | false =>
    constructor
    · intro htrue
      rw [consume] at htrue
      simp only [hsucc] at htrue
      cases hc2 : (consumeNormalize cfg (readKV st) now).2 with
      | true => simp only [hc2, if_pos] at htrue; exact absurd htrue (by simp)
      | false => simp only [hc2] at htrue; exact absurd htrue (by simp)
    · intro _
      cases hc2 : (consumeNormalize cfg (readKV st) now).2 with
      | true =>
        rw [consume]
        simp only [hsucc, hc2]
        refine ⟨?_, ?_, ?_⟩
        · simp only [Bool.false_eq_true, if_neg, if_pos]
          simp
          exact hch.mp hc2
        · intro habs
          simp at habs
        · intro _
          exact ⟨by simp, by simp⟩
      | false =>
        rw [consume]
        simp only [hsucc, hc2]
        refine ⟨?_, ?_, ?_⟩
        · have hnl : ¬ (consumeNormalize cfg (readKV st) now).1.length
              < (readKV st).length := by
            intro hlt
            exact absurd (hch.mpr hlt) (by simp [hc2])
          simp [hnl]
        · intro _
          simp
        · intro habs
          simp at habs

/-- Witness for `consume_write_policy`: the pre-seeded over-limit record of
the repo's trim test (`limit = 2`, record `[1000, 2000, 3000]`, `now = 4000`)
is denied, yet the trimmed array is written back. -/
theorem consume_write_policy_witness :
    (consume ⟨2, 60, 0⟩
        ⟨some [JVal.num 1000, JVal.num 2000, JVal.num 3000], false, false⟩
        4000).2.2 ≠ []
      ∧ (consumeNormalize ⟨2, 60, 0⟩
          (readKV ⟨some [JVal.num 1000, JVal.num 2000, JVal.num 3000],
            false, false⟩) 4000).1.length
        < (readKV ⟨some [JVal.num 1000, JVal.num 2000, JVal.num 3000],
            false, false⟩).length := by
  have h := (consume_write_policy ⟨2, 60, 0⟩ (by decide)
    ⟨some [JVal.num 1000, JVal.num 2000, JVal.num 3000], false, false⟩
    4000).2 (by decide)
  exact ⟨by decide, h.1.mp (by decide)⟩

/-! ### C2: normalization invariants -/

/-- C2 counterexample: with the valid configuration `limit = 1`,
`period = 60`, `interval = 0`, a raw record of two fresh timestamps and
`now = 2000`, the normalization performed by the inspect path keeps both
entries, so its length exceeds `limit`: the inspect path never trims. -/
theorem inspect_normalize_overflow :
    Config.Valid ⟨1, 60, 0⟩
      ∧ ¬ (((inspectNormalize ⟨1, 60, 0⟩ [JVal.num 0, JVal.num 1000]
            2000).length : Int) ≤ (1 : Int)) := by
  decide

/-- C2 amended: for every raw sequence, `now` and valid configuration, both
normalizations produce a sorted sequence of fresh entries; the consume
path additionally trims to the most recent `limit` entries (its output is
a suffix of the sorted pruned sequence, of length `min length limit`),
while the inspect path does not trim. -/
theorem normalize_invariants (cfg : Config) (hv : cfg.Valid)
    (raw : List JVal) (now : Int) :
    List.Sorted (· ≤ ·) (inspectNormalize cfg raw now)
      ∧ (∀ x ∈ inspectNormalize cfg raw now, now - cfg.period * 1000 < x)
      ∧ List.Sorted (· ≤ ·) (consumeNormalize cfg raw now).1
      ∧ (∀ x ∈ (consumeNormalize cfg raw now).1, now - cfg.period * 1000 < x)
      ∧ ((consumeNormalize cfg raw now).1.length : Int) ≤ cfg.limit
      ∧ (consumeNormalize cfg raw now).1 <:+ inspectNormalize cfg raw now
      ∧ (consumeNormalize cfg raw now).1.length
          = min (inspectNormalize cfg raw now).length cfg.limit.toNat := by
  obtain ⟨h1, -, -, -⟩ := hv
  have hlen := pruneSort_length_le cfg raw now
  refine ⟨pruneSort_sorted cfg raw now, mem_pruneSort_fresh cfg raw now,
    consumeNormalize_fst_sorted cfg raw now,
    consumeNormalize_fst_fresh cfg raw now, ?_, ?_, ?_⟩
  · rw [consumeNormalize]
    by_cases h : cfg.limit < ((pruneSort cfg raw now).length : Int)
    · simp only [h, if_pos]
      try simp
      omega
    · simp only [h, if_neg, not_false_iff]
      try simp
      omega
  · rw [consumeNormalize, inspectNormalize]
    by_cases h : cfg.limit < ((pruneSort cfg raw now).length : Int)
    · simp only [h, if_pos]
      exact List.drop_suffix _ _
    · simp only [h, if_neg, not_false_iff]
      exact List.suffix_refl _
  · rw [consumeNormalize, inspectNormalize]
    by_cases h : cfg.limit < ((pruneSort cfg raw now).length : Int)
    · simp only [h, if_pos]
      try simp
      omega
    · simp only [h, if_neg, not_false_iff]
      try simp
      omega

/-- Witness for `normalize_invariants` on a concrete over-long record. -/
theorem normalize_invariants_witness :
    List.Sorted (· ≤ ·)
        (consumeNormalize ⟨1, 60, 0⟩ [JVal.num 1000, JVal.num 0] 2000).1
      ∧ ((consumeNormalize ⟨1, 60, 0⟩ [JVal.num 1000, JVal.num 0]
          2000).1.length : Int) ≤ 1 := by
  have h := normalize_invariants ⟨1, 60, 0⟩ (by decide)
    [JVal.num 1000, JVal.num 0] 2000
  exact ⟨h.2.2.1, h.2.2.2.2.1⟩

/-! ### C10: a rejection never reports reset 0 -/


/-- If every entry of `arr` is fresh (as normalization guarantees), a
rejecting `computeState` reports a reset of at least one second. -/
lemma computeState_reset_pos (cfg : Config) (hv : cfg.Valid)
    (arr : List Int) (now : Int)
    (hfresh : ∀ x ∈ arr, now - cfg.period * 1000 < x)
    (hs : (computeState cfg arr now).success = false) :
    1 ≤ (computeState cfg arr now).reset := by
  obtain ⟨h1, h2, h3, h4⟩ := hv
  by_cases hL : ((arr.length : Int) < cfg.limit)
  · -- the interval gate must be the blocking one
    by_cases hI0 : cfg.interval * 1000 ≤ 0
    · simp [computeState, hL, hI0] at hs
    · cases hlast : arr.getLast? with
      | none =>
        simp [computeState, hL, hI0, hlast] at hs
      | some l =>
        by_cases hIlt : cfg.interval * 1000 ≤ now - l
        · simp [computeState, hL, hI0, hlast, hIlt] at hs
        · simp only [computeState, hL, hI0, hlast]
          simp [hIlt]
          have hc : (0 : Int) ≤ l + cfg.interval * 1000 - now := by omega
          rw [max_eq_right hc]
          omega
  · -- the limit gate blocks; the head entry is fresh
    cases arr with
    | nil => simp at hL; omega
    | cons a t =>
      have ha : now - cfg.period * 1000 < a := hfresh a (by simp)
      have hc0 : (0 : Int) ≤ a + cfg.period * 1000 - now := by omega
      by_cases hI0 : cfg.interval * 1000 ≤ 0
      · simp only [computeState, hL, hI0]
        simp
        rw [max_eq_right hc0]
        omega
      · cases hlast : (a :: t).getLast? with
        | none => simp at hlast
        | some l =>
          by_cases hIlt : cfg.interval * 1000 ≤ now - l
          · simp only [computeState, hL, hI0, hlast]
            simp [hIlt]
            rw [max_eq_right hc0]
            omega
          · simp only [computeState, hL, hI0, hlast]
            simp [hIlt]
            have hmx : (0 : Int)
                ≤ max (a + cfg.period * 1000 - now)
                    (l + cfg.interval * 1000 - now) :=
              le_trans hc0 (le_max_left _ _)
            rw [max_eq_right hmx]
            rcases le_total (a + cfg.period * 1000 - now)
                (l + cfg.interval * 1000 - now) with hcmp | hcmp
            · rw [max_eq_right hcmp]
              omega
            · rw [max_eq_left hcmp]
              omega

/-- C10: whenever `Consume` or `Inspect` rejects, the reported reset is at
least one second — a rejected caller is never told to retry immediately. -/
theorem reject_reset_positive (cfg : Config) (hv : cfg.Valid)
    (st : StoreState) (now : Int) :
    ((consume cfg st now).1.success = false →
        1 ≤ (consume cfg st now).1.reset)
      ∧ ((inspect cfg st now).success = false →
          1 ≤ (inspect cfg st now).reset) := by
  constructor
  · intro hs
    obtain ⟨he1, he2⟩ := consume_fst_eq cfg st now
    rw [he2]
    rw [he1] at hs
    exact computeState_reset_pos cfg hv _ now
      (consumeNormalize_fst_fresh cfg (readKV st) now) hs
  · intro hs
    have he1 : (inspect cfg st now).success
        = (computeState cfg (inspectNormalize cfg (readKV st) now) now).success := rfl
    have he2 : (inspect cfg st now).reset
        = (computeState cfg (inspectNormalize cfg (readKV st) now) now).reset := rfl
    rw [he2]
    rw [he1] at hs
    exact computeState_reset_pos cfg hv _ now
      (mem_pruneSort_fresh cfg (readKV st) now) hs

/-- Witness for `reject_reset_positive`: `limit = 1`, record `[0]`,
`now = 1000` — both entry points reject with reset `59 ≥ 1`. -/
theorem reject_reset_positive_witness :
    1 ≤ (consume ⟨1, 60, 0⟩ ⟨some [JVal.num 0], false, false⟩ 1000).1.reset
      ∧ 1 ≤ (inspect ⟨1, 60, 0⟩ ⟨some [JVal.num 0], false, false⟩ 1000).reset := by
  have h := reject_reset_positive ⟨1, 60, 0⟩ (by decide)
    ⟨some [JVal.num 0], false, false⟩ 1000
  exact ⟨h.1 (by decide), h.2 (by decide)⟩

/-! ### C1: the combined reset formula -/

/-- C1: for every valid configuration, non-empty normalized state and
`now`: on success the reset is `0`; on rejection the reset equals the
spec's formula `ceil(max(candidates, 0) / 1000)` over the candidates of
the blocking gates, taking the larger candidate when both gates block. -/
theorem computeState_reset_spec (cfg : Config) (hv : cfg.Valid)
    (arr : List Int) (hne : arr ≠ []) (now : Int) :
    ((computeState cfg arr now).success = true →
        (computeState cfg arr now).reset = 0)
      ∧ ((computeState cfg arr now).success = false →
          (computeState cfg arr now).reset = specResetSeconds cfg arr now) := by
  obtain ⟨a, t, rfl⟩ := List.exists_cons_of_ne_nil hne
  cases hlast : (a :: t).getLast? with
  | none => simp at hlast
  | some l =>
    by_cases hL : (((a :: t).length : Int) < cfg.limit)
    all_goals by_cases hI0 : cfg.interval * 1000 ≤ 0
    all_goals by_cases hIlt : cfg.interval * 1000 ≤ now - l
    all_goals constructor
    all_goals intro hs
    all_goals
      simp only [computeState, specResetSeconds, hL, hI0, hIlt, hlast] at hs ⊢
    all_goals simp [hIlt, hI0, hL, -Int.cast_max] at hs ⊢
    all_goals rw [ceil_ratCast_div_1000]
    all_goals rw [max_comm]

/-- Witness for `computeState_reset_spec`: `limit = 1`, `interval = 10`,
state `[0]`, `now = 500` — both gates block and the formula applies. -/
theorem computeState_reset_spec_witness :
    (computeState ⟨1, 60, 10⟩ [0] 500).success = false
      ∧ (computeState ⟨1, 60, 10⟩ [0] 500).reset
          = specResetSeconds ⟨1, 60, 10⟩ [0] 500 := by
  have h := computeState_reset_spec ⟨1, 60, 10⟩ (by decide) [0] (by decide) 500
  exact ⟨by decide, h.2 (by decide)⟩

/-! ### C9: second call at the same instant with interval gating -/

/-- C9 counterexample: with the valid configuration `limit = 1`,
`period = 60`, `interval = 10`, the second call at the same instant on a
fresh key is rejected with `reset = 60` (the period candidate wins), not
`reset = interval = 10`. -/
theorem second_call_reset_limit_one :
    Config.Valid ⟨1, 60, 10⟩
      ∧ (consume ⟨1, 60, 10⟩ ⟨none, false, false⟩ 0).1.success = true
      ∧ (consume ⟨1, 60, 10⟩
          (consume ⟨1, 60, 10⟩ ⟨none, false, false⟩ 0).2.1 0).1.success = false
      ∧ (consume ⟨1, 60, 10⟩
          (consume ⟨1, 60, 10⟩ ⟨none, false, false⟩ 0).2.1 0).1.reset = 60
      ∧ (consume ⟨1, 60, 10⟩
          (consume ⟨1, 60, 10⟩ ⟨none, false, false⟩ 0).2.1 0).1.reset ≠ 10 := by
  decide

/-- Full output of `consume` on a fresh key. -/
lemma consume_fresh_eq (cfg : Config) (hv : cfg.Valid) (now : Int) :
    consume cfg ⟨none, false, false⟩ now
      = (⟨true, cfg.limit, cfg.limit - 1, 0⟩,
          ⟨some [JVal.num now], false, false⟩, [([now], cfg.period)]) := by
  obtain ⟨h1, h2, h3, h4⟩ := hv
  have hr : readKV ⟨none, false, false⟩ = [] := rfl
  rw [consume, hr, consumeNormalize_nil cfg (by omega) now,
    computeState_nil cfg (by omega) now]
  simp [writeKV]
  omega

lemma pruneSort_single (cfg : Config) (hp : 0 < cfg.period) (now : Int) :
    pruneSort cfg [JVal.num now] now = [now] := by
  rw [pruneSort]
  simp [show now - cfg.period * 1000 < now by omega, List.insertionSort]

/-- C9 amended: for every valid configuration with `interval ≥ 1` AND
`limit ≥ 2`, two calls on a fresh key at the same instant give: first
admitted, second rejected with `reset = interval` exactly. (With
`limit = 1` the limit gate also blocks and the larger period candidate is
reported instead.) -/
theorem second_call_interval_reset (cfg : Config) (hv : cfg.Valid)
    (hi : 1 ≤ cfg.interval) (hl : 2 ≤ cfg.limit) (now : Int) :
    (consume cfg ⟨none, false, false⟩ now).1.success = true
      ∧ (consume cfg
          (consume cfg ⟨none, false, false⟩ now).2.1 now).1.success = false
      ∧ (consume cfg
          (consume cfg ⟨none, false, false⟩ now).2.1 now).1.reset
            = cfg.interval := by
  obtain ⟨h1, h2, h3, h4⟩ := hv
  have hfull := consume_fresh_eq cfg ⟨h1, h2, h3, h4⟩ now
  have hcn : consumeNormalize cfg [JVal.num now] now = ([now], false) := by
    rw [consumeNormalize, pruneSort_single cfg (by omega) now]
    rw [if_neg (show ¬ (cfg.limit < (([now] : List Int).length : Int)) by
      simp; omega)]
    simp
  obtain ⟨hes, her⟩ :=
    consume_fst_eq cfg ⟨some [JVal.num now], false, false⟩ now
  rw [show readKV ⟨some [JVal.num now], false, false⟩ = [JVal.num now]
    from rfl, hcn] at hes her
  rw [hfull]
  refine ⟨rfl, ?_, ?_⟩
  · rw [hes, computeState]
    simp [show ¬ (cfg.interval * 1000 ≤ 0) by omega,
      show ¬ (cfg.interval * 1000 ≤ now - now) by omega]
  · rw [her, computeState]
    have hlt : (1 : Int) < cfg.limit := by omega
    simp [hlt, show ¬ (cfg.interval * 1000 ≤ 0) by omega,
      show ¬ (cfg.interval * 1000 ≤ now - now) by omega]
    rw [max_eq_right (by omega : (0:Int) ≤ cfg.interval * 1000)]
    omega

/-- Witness for `second_call_interval_reset` at the repo's own test
configuration `limit = 3`, `period = 60`, `interval = 10`. -/
theorem second_call_interval_reset_witness :
    (consume ⟨3, 60, 10⟩ ⟨none, false, false⟩ 0).1.success = true
      ∧ (consume ⟨3, 60, 10⟩
          (consume ⟨3, 60, 10⟩ ⟨none, false, false⟩ 0).2.1 0).1.success = false
      ∧ (consume ⟨3, 60, 10⟩
          (consume ⟨3, 60, 10⟩ ⟨none, false, false⟩ 0).2.1 0).1.reset = 10 :=
  second_call_interval_reset ⟨3, 60, 10⟩ (by decide) (by decide) (by decide) 0

/-! ### C6 / C7: construction-time validation -/

/-- C6: constructing with no store/binding option at all and otherwise
valid numerics succeeds — the constructor never examines a store
capability; the `get`/`put` assertion lives in the async `resolveKV` and
only runs on the first call, after I/O. (The repo's own tests instead
expect a synchronous `store (Cloudflare KV) required with get/put methods`
failure here.) -/
theorem construct_no_store_check :
    validateOptions ⟨none, none, some 1, some 60, none⟩
      = Except.ok ⟨"KV", "ratelimit:", ⟨1, 60, 0⟩⟩ := by
  rfl

/-- On `ℚ` the floor `Int.floor` is `Rat.floor`. -/
lemma floor_eq_ratFloor (q : ℚ) : ⌊q⌋ = Rat.floor q := rfl

lemma ratFloor_intCast (z : Int) : Rat.floor ((z : Int) : ℚ) = z := by
  rw [← floor_eq_ratFloor, Int.floor_intCast]

/-- C7 counterexample: for `interval = -1/2` the code floors to `-1` and
rejects with `interval must be >= 0`, while truncation toward zero gives
`0`, which satisfies every constraint (the resulting configuration is
valid) — so the numerics are not truncated toward zero. -/
theorem floor_not_trunc :
    validateOptions ⟨none, none, some 3, some 60, some (-(1 : Rat) / 2)⟩
        = Except.error "interval must be >= 0"
      ∧ truncTowardZero (-(1 : Rat) / 2) = 0
      ∧ validateOptions ⟨none, none, some 3, some 60, some 0⟩
          = Except.ok ⟨"KV", "ratelimit:", ⟨3, 60, 0⟩⟩
      ∧ Config.Valid ⟨3, 60, 0⟩ := by
  have h1 : Rat.floor (3 : ℚ) = 3 := by rw [← floor_eq_ratFloor]; norm_num
  have h2 : Rat.floor (60 : ℚ) = 60 := by rw [← floor_eq_ratFloor]; norm_num
  have hf : Rat.floor (-(1 : ℚ) / 2) = -1 := by
    rw [← floor_eq_ratFloor]; norm_num
  refine ⟨?_, ?_, by rfl, by decide⟩
  · simp [validateOptions, h1, h2, hf]
    rfl
  · rw [truncTowardZero, if_neg (by norm_num)]
    norm_num

/-- C7 amended: every raw numeric option is floored (rounded toward
negative infinity, `Math.floor`) before the validation constraints are
applied: validation cannot distinguish the raw options from their
pre-floored image. -/
theorem floor_before_validation (o : RawOptions) :
    validateOptions o = validateOptions (floorOptions o) := by
  obtain ⟨b, p, l, pd, i⟩ := o
  cases l <;> cases pd <;> cases i <;>
    simp [validateOptions, floorOptions, floor_eq_ratFloor, ratFloor_intCast]
